import Mathlib

/-!
# The library migration `migrations/2_deploy_libraries.js`

The migration is a JavaScript function of one argument, the deployer.  It issues
five `deployer.deploy` calls and three `deployer.link` calls, in a fixed textual
order, on ten artifacts obtained from `artifacts.require`.

The embedding keeps the function as a function of its deployer: a deployer is a
pair of methods acting on a state of the deployer's own choosing, each of which
either returns a value or throws.  The call sequence of the migration is what a
deployer that only writes down its calls has recorded at the end of the run.
-/

namespace DeployLibraries

/-! ## Artifacts -/

/-- A contract abstraction, as returned by `artifacts.require`: it is identified by
the path it was required from. -/
structure Artifact where
  path : String
deriving DecidableEq, Repr

/-- The call `artifacts.require(path)`. -/
def artifacts.require (path : String) : Artifact := ⟨path⟩

def Token : Artifact := artifacts.require "./lib/bokkypoobah/Token.sol"
def MMInstantiator : Artifact := artifacts.require "./MMInstantiator.sol"
def SimpleMemoryLib : Artifact := artifacts.require "./SimpleMemoryLib.sol"
def SimpleMemoryInstantiator : Artifact := artifacts.require "./SimpleMemoryInstantiator.sol"
def SubleqLib : Artifact := artifacts.require "./SubleqLib.sol"
def SubleqInterface : Artifact := artifacts.require "./SubleqInterface.sol"
def PartitionInstantiator : Artifact := artifacts.require "./PartitionInstantiator.sol"
def DepthLib : Artifact := artifacts.require "./DepthLib.sol"
def DepthInterface : Artifact := artifacts.require "./DepthInterface.sol"
def VGInstantiator : Artifact := artifacts.require "./VGInstantiator.sol"

/-- The artifacts declared by the `var ... = artifacts.require(...)` statements at the
top of the file, in the order of the statements (lines 1 to 10). -/
def declared : List Artifact :=
  [Token, MMInstantiator, SimpleMemoryLib, SimpleMemoryInstantiator, SubleqLib,
   SubleqInterface, PartitionInstantiator, DepthLib, DepthInterface, VGInstantiator]

/-! ## Statements and deployers -/

/-- The effect of a JavaScript statement on a state `σ`: it returns a value of `α` or
throws an `ε`, and the state changes made before a throw stay made. -/
def Js (σ ε α : Type) : Type := σ → Except ε α × σ

/-- A statement that returns `a` and leaves the state alone. -/
def Js.ret {σ ε α : Type} (a : α) : Js σ ε α := fun s => (.ok a, s)

/-- Sequencing: the second statement runs only when the first one returned. -/
def Js.seq {σ ε α β : Type} (m : Js σ ε α) (f : α → Js σ ε β) : Js σ ε β := fun s =>
  match m s with
  | (.ok a, s1) => f a s1
  | (.error e, s1) => (.error e, s1)

instance instMonadJs {σ ε : Type} : Monad (Js σ ε) where
  pure := Js.ret
  bind := Js.seq

/-- The object the migration is handed: its two methods, over a state `σ` of the
deployer, throwing errors of `ε` and returning results of `ρ`. -/
structure Deployer (σ ε ρ : Type) where
  deploy : Artifact → Js σ ε ρ
  link : Artifact → Artifact → Js σ ε ρ

/-! ## The migration -/

/-- The function assigned to `module.exports` (lines 12 to 21): eight method calls
on the deployer, one statement each, every returned value discarded. -/
def migration {σ ε ρ : Type} (deployer : Deployer σ ε ρ) : Js σ ε Unit := do
  let _ ← deployer.deploy MMInstantiator
  let _ ← deployer.deploy SimpleMemoryInstantiator
  let _ ← deployer.deploy SubleqLib
  let _ ← deployer.link SubleqLib SubleqInterface
  let _ ← deployer.deploy PartitionInstantiator
  let _ ← deployer.deploy DepthLib
  let _ ← deployer.link DepthLib DepthInterface
  let _ ← deployer.link SubleqLib VGInstantiator
  pure ()

/-! ## Observing a run -/

/-- A method call on the deployer, with its arguments. -/
inductive Call where
  | deploy (unit : Artifact)
  | link (library destination : Artifact)
deriving DecidableEq, Repr

/-- The deployer that does nothing but write down each call it receives. -/
def recorder : Deployer (List Call) Empty Unit where
  deploy u := fun log => (.ok (), log ++ [Call.deploy u])
  link l d := fun log => (.ok (), log ++ [Call.link l d])

/-- The call sequence the migration issues: the log of the recorder after the run. -/
def calls : List Call := (migration recorder []).2

/-- A deployer with a call log put in front of it: every call is written down when it
is issued, then handed to the deployer itself. -/
def logged {σ ε ρ : Type} (d : Deployer σ ε ρ) : Deployer (σ × List Call) ε ρ where
  deploy u := fun st =>
    let r := d.deploy u st.1
    (r.1, (r.2, st.2 ++ [Call.deploy u]))
  link l t := fun st =>
    let r := d.link l t st.1
    (r.1, (r.2, st.2 ++ [Call.link l t]))

/-- The calls the migration issues on `d`, started in state `s`. -/
def issued {σ ε ρ : Type} (d : Deployer σ ε ρ) (s : σ) : List Call :=
  (migration (logged d) (s, [])).2.2

/-- The run of the migration on `d` from state `s` returns rather than throws. -/
def completes {σ ε ρ : Type} (d : Deployer σ ε ρ) (s : σ) : Bool :=
  match (migration d s).1 with
  | .ok _ => true
  | .error _ => false

/-- The units of the `deploy` calls of a call sequence, in order. -/
def deployTargets : List Call → List Artifact
  | [] => []
  | Call.deploy u :: cs => u :: deployTargets cs
  | Call.link _ _ :: cs => deployTargets cs

/-- The (library, dependent) pairs of the `link` calls of a call sequence, in order. -/
def linkEdges : List Call → List (Artifact × Artifact)
  | [] => []
  | Call.deploy _ :: cs => linkEdges cs
  | Call.link l d :: cs => (l, d) :: linkEdges cs

/-- The artifacts a call names. -/
def Call.units : Call → List Artifact
  | Call.deploy u => [u]
  | Call.link l d => [l, d]

/-- The edge relation of the link graph: `l` is linked into `d` by some call. -/
def LinkEdge (l d : Artifact) : Prop := (l, d) ∈ linkEdges calls

/-- The artifacts named by the calls of a call sequence, in order of mention. -/
def mentioned : List Call → List Artifact
  | [] => []
  | c :: cs => c.units ++ mentioned cs

/-- The libraries of the `link` calls of a call sequence. -/
def libraries (cs : List Call) : List Artifact := (linkEdges cs).map Prod.fst

/-- The dependents of the `link` calls of a call sequence. -/
def dependents (cs : List Call) : List Artifact := (linkEdges cs).map Prod.snd

/-- One call, made on the deployer `d`. -/
def Call.run {σ ε ρ : Type} (d : Deployer σ ε ρ) : Call → Js σ ε ρ
  | Call.deploy u => d.deploy u
  | Call.link l t => d.link l t

/-- A call sequence made on `d`, one call after the other, results discarded, stopping
at the first call that throws. -/
def runCalls {σ ε ρ : Type} (d : Deployer σ ε ρ) : List Call → Js σ ε Unit
  | [] => Js.ret ()
  | c :: cs => Js.seq (c.run d) fun _ => runCalls d cs

/-! ## A ledger behind the deployer -/

/-- The address a deployed unit is given. -/
abbrev Address : Type := Nat

/-- The fatal error of a run: the ledger did not accept the submission of `unit`. -/
inductive Failure where
  | DeploymentFailure (unit : Artifact)
deriving DecidableEq, Repr

/-- The state of the ledger deployer: the DeploymentRecord (unit, address), in the
order of recording, and the number of submissions made so far. -/
structure Ledger where
  record : List (Artifact × Address)
  attempts : Nat
deriving DecidableEq, Repr

/-- The state before the run: nothing recorded, nothing submitted. -/
def Ledger.empty : Ledger := ⟨[], 0⟩

/-- The units that have an entry in the DeploymentRecord, in the order of recording. -/
def Ledger.keys (st : Ledger) : List Artifact := st.record.map Prod.fst

/-- Modelled from the spec: the ledger-submission subsystem, which the source only
consumes (`deploy(artifact) -> address | failure`).  `submit n u` is the answer of the
ledger to the submission of `u` made after `n` earlier submissions.  A successful
deployment appends one entry to the DeploymentRecord; a failed one throws a
`DeploymentFailure` naming the unit and records nothing; a link call adds no entry. -/
def ledgerDeployer (submit : Nat → Artifact → Option Address) :
    Deployer Ledger Failure Unit where
  deploy u := fun st =>
    match submit st.attempts u with
    | some a => (.ok (), ⟨st.record ++ [(u, a)], st.attempts + 1⟩)
    | none => (.error (Failure.DeploymentFailure u), ⟨st.record, st.attempts + 1⟩)
  link _ _ := fun st => (.ok (), st)

/-- The run of the migration on the ledger deployer, from the empty ledger, with the
calls written down: the outcome, the final ledger and the calls issued. -/
def ledgerRun (submit : Nat → Artifact → Option Address) :
    Except Failure Unit × Ledger × List Call :=
  migration (logged (ledgerDeployer submit)) (Ledger.empty, [])

/-! ## Facts about the call sequence -/

theorem calls_eq : calls =
    [Call.deploy MMInstantiator, Call.deploy SimpleMemoryInstantiator,
     Call.deploy SubleqLib, Call.link SubleqLib SubleqInterface,
     Call.deploy PartitionInstantiator, Call.deploy DepthLib,
     Call.link DepthLib DepthInterface, Call.link SubleqLib VGInstantiator] := rfl

theorem calls_length : calls.length = 8 := rfl

theorem lt_of_calls_getElem? {i : Nat} {c : Call} (h : calls[i]? = some c) : i < 8 := by
  by_contra hc
  rw [List.getElem?_eq_none (by rw [calls_length]; omega)] at h
  cases h

theorem linkEdge_cases {a b : Artifact} (h : LinkEdge a b) :
    (a = SubleqLib ∧ b = SubleqInterface) ∨ (a = DepthLib ∧ b = DepthInterface) ∨
      (a = SubleqLib ∧ b = VGInstantiator) := by
  simpa [LinkEdge, calls_eq, linkEdges] using h

theorem linkEdge_sides {a b : Artifact} (h : LinkEdge a b) :
    a ∉ dependents calls ∧ b ∈ dependents calls := by
  rcases linkEdge_cases h with ⟨rfl, rfl⟩ | ⟨rfl, rfl⟩ | ⟨rfl, rfl⟩ <;> decide

theorem transGen_linkEdge_sides {a b : Artifact} (h : Relation.TransGen LinkEdge a b) :
    a ∉ dependents calls ∧ b ∈ dependents calls := by
  induction h with
  | single e => exact linkEdge_sides e
  | tail _ e ih => exact absurd ih.2 (linkEdge_sides e).1

theorem migration_eq_runCalls {σ ε ρ : Type} (d : Deployer σ ε ρ) :
    migration d = runCalls d calls := rfl

theorem logged_run {σ ε ρ : Type} (d : Deployer σ ε ρ) (c : Call) (s : σ)
    (log : List Call) :
    c.run (logged d) (s, log) = ((c.run d s).1, ((c.run d s).2, log ++ [c])) := by
  cases c <;> rfl

/-- Writing the calls down changes neither the outcome nor the deployer's state. -/
theorem logged_runCalls {σ ε ρ : Type} (d : Deployer σ ε ρ) (cs : List Call) :
    ∀ (s : σ) (log : List Call),
      (runCalls (logged d) cs (s, log)).1 = (runCalls d cs s).1 ∧
        (runCalls (logged d) cs (s, log)).2.1 = (runCalls d cs s).2 := by
  induction cs with
  | nil => intro s log; exact ⟨rfl, rfl⟩
  | cons c cs ih =>
    intro s log
    simp only [runCalls, Js.seq, logged_run]
    rcases h : c.run d s with ⟨r, s1⟩
    cases r with
    | error e => exact ⟨rfl, rfl⟩
    | ok a => exact ih s1 (log ++ [c])

/-- Whatever the deployer does, the calls a run issues are the first few calls of the
sequence, in order. -/
theorem log_of_runCalls {σ ε ρ : Type} (d : Deployer σ ε ρ) (cs : List Call) :
    ∀ (s : σ) (log : List Call), ∃ n,
      (runCalls (logged d) cs (s, log)).2.2 = log ++ cs.take n := by
  induction cs with
  | nil => intro s log; exact ⟨0, by simp [runCalls, Js.ret]⟩
  | cons c cs ih =>
    intro s log
    simp only [runCalls, Js.seq, logged_run]
    rcases h : c.run d s with ⟨r, s1⟩
    cases r with
    | error e => exact ⟨1, by simp⟩
    | ok a =>
      obtain ⟨n, hn⟩ := ih s1 (log ++ [c])
      exact ⟨n + 1, by simpa using hn⟩

theorem issued_eq_take {σ ε ρ : Type} (d : Deployer σ ε ρ) (s : σ) :
    ∃ n, issued d s = calls.take n := by
  obtain ⟨n, hn⟩ := log_of_runCalls d calls s []
  exact ⟨n, by unfold issued; rw [migration_eq_runCalls]; simpa using hn⟩

/-- A run that returns has issued every call of the sequence. -/
theorem log_of_runCalls_ok {σ ε ρ : Type} (d : Deployer σ ε ρ) (cs : List Call) :
    ∀ (s : σ) (log : List Call) (u : Unit),
      (runCalls (logged d) cs (s, log)).1 = .ok u →
        (runCalls (logged d) cs (s, log)).2.2 = log ++ cs := by
  induction cs with
  | nil => intro s log u _; simp [runCalls, Js.ret]
  | cons c cs ih =>
    intro s log u
    simp only [runCalls, Js.seq, logged_run]
    rcases h : c.run d s with ⟨r, s1⟩
    cases r with
    | error e => intro hok; cases hok
    | ok a =>
      intro hok
      have := ih s1 (log ++ [c]) u hok
      simpa using this

theorem issued_of_completes {σ ε ρ : Type} (d : Deployer σ ε ρ) (s : σ)
    (h : completes d s = true) : issued d s = calls := by
  have hA := (logged_runCalls d calls s []).1
  unfold completes at h
  rw [migration_eq_runCalls] at h
  unfold issued
  rw [migration_eq_runCalls]
  cases hr : (runCalls d calls s).1 with
  | error e => rw [hr] at h; cases h
  | ok u =>
    rw [hr] at hA
    simpa using log_of_runCalls_ok d calls s [] u hA

/-- On the ledger deployer, the units recorded by a run are those recorded before it,
followed by an initial segment of the units the call sequence deploys. -/
theorem ledger_keys_runCalls (submit : Nat → Artifact → Option Address) (cs : List Call) :
    ∀ st : Ledger, ∃ n,
      (runCalls (ledgerDeployer submit) cs st).2.keys = st.keys ++ (deployTargets cs).take n := by
  induction cs with
  | nil => intro st; exact ⟨0, by simp [runCalls, Js.ret]⟩
  | cons c cs ih =>
    intro st
    cases c with
    | deploy u =>
      cases hs : submit st.attempts u with
      | none =>
        have hstep : (Call.deploy u).run (ledgerDeployer submit) st =
            (.error (Failure.DeploymentFailure u), ⟨st.record, st.attempts + 1⟩) := by
          simp [Call.run, ledgerDeployer, hs]
        exact ⟨0, by simp [runCalls, Js.seq, hstep, Ledger.keys]⟩
      | some a =>
        have hstep : (Call.deploy u).run (ledgerDeployer submit) st =
            (.ok (), ⟨st.record ++ [(u, a)], st.attempts + 1⟩) := by
          simp [Call.run, ledgerDeployer, hs]
        obtain ⟨n, hn⟩ := ih ⟨st.record ++ [(u, a)], st.attempts + 1⟩
        refine ⟨n + 1, ?_⟩
        simp only [runCalls, Js.seq, hstep, hn, deployTargets]
        simp [Ledger.keys]
    | link l t =>
      obtain ⟨n, hn⟩ := ih st
      exact ⟨n, by simpa [runCalls, Js.seq, Call.run, ledgerDeployer, deployTargets] using hn⟩

/-! ## The claims -/

/-- C1: for every call `link(L, D)` of the migration there is a call `deploy(L)` at a
strictly earlier position, so `L` is among the units deployed, and hence recorded,
by the calls before the link. -/
theorem deploy_precedes_link (L D : Artifact) (i : Nat)
    (h : calls[i]? = some (Call.link L D)) :
    (∃ k, k < i ∧ calls[k]? = some (Call.deploy L)) ∧ L ∈ deployTargets (calls.take i) := by
  have hi := lt_of_calls_getElem? h
  rw [calls_eq] at h ⊢
  interval_cases i <;> simp at h
  · obtain ⟨rfl, rfl⟩ := h
    exact ⟨⟨2, by decide, rfl⟩, by decide⟩
  · obtain ⟨rfl, rfl⟩ := h
    exact ⟨⟨5, by decide, rfl⟩, by decide⟩
  · obtain ⟨rfl, rfl⟩ := h
    exact ⟨⟨2, by decide, rfl⟩, by decide⟩

/-- The link of SubleqLib into VGInstantiator, the last call, as an instance of C1. -/
theorem deploy_precedes_link_witness :
    calls[7]? = some (Call.link SubleqLib VGInstantiator) ∧
      ((∃ k, k < 7 ∧ calls[k]? = some (Call.deploy SubleqLib)) ∧
        SubleqLib ∈ deployTargets (calls.take 7)) :=
  ⟨rfl, deploy_precedes_link SubleqLib VGInstantiator 7 rfl⟩

/-- C2: for every link edge `(L, D)` of the migration, `deploy(L)` comes before
`link(L, D)`, and no call at a position before `deploy(L)` or before `link(L, D)` is
`deploy(D)`. -/
theorem no_dependent_deploy_before_library (L D : Artifact) (i k j : Nat)
    (hl : calls[i]? = some (Call.link L D)) (hk : calls[k]? = some (Call.deploy L))
    (hj : j < k ∨ j < i) :
    k < i ∧ calls[j]? ≠ some (Call.deploy D) := by
  have hi := lt_of_calls_getElem? hl
  have hk8 := lt_of_calls_getElem? hk
  have hj8 : j < 8 := by omega
  rw [calls_eq] at hl hk ⊢
  interval_cases i <;> simp at hl <;> obtain ⟨rfl, rfl⟩ := hl <;>
    interval_cases k <;> simp at hk <;>
    first
      | (exfalso; revert hk; decide)
      | (refine ⟨by decide, ?_⟩; interval_cases j <;> decide)

/-- The edge SubleqLib to SubleqInterface and the position 1, as an instance of C2. -/
theorem no_dependent_deploy_before_library_witness :
    calls[3]? = some (Call.link SubleqLib SubleqInterface) ∧
      calls[2]? = some (Call.deploy SubleqLib) ∧ (1 < 2 ∨ 1 < 3) ∧
      (2 < 3 ∧ calls[1]? ≠ some (Call.deploy SubleqInterface)) :=
  ⟨rfl, rfl, Or.inl (by decide),
    no_dependent_deploy_before_library SubleqLib SubleqInterface 3 2 1 rfl rfl
      (Or.inl (by decide))⟩

/-- C3, as stated, fails: `SubleqInterface` is named by a call of the migration, as
the dependent of a link, and the call sequence has no `deploy` call for it. -/
theorem dependent_named_but_not_deployed :
    SubleqInterface ∈ mentioned calls ∧ (deployTargets calls).count SubleqInterface = 0 := by
  decide

/-- C3, amended: of the units the migration names, each one that is not the dependent
of a link call has exactly one `deploy` call, and each dependent of a link call has
none. -/
theorem deploy_count_of_mentioned (u : Artifact) (h : u ∈ mentioned calls) :
    (deployTargets calls).count u = if u ∈ dependents calls then 0 else 1 := by
  rw [calls_eq] at h
  simp only [mentioned, Call.units, List.cons_append, List.nil_append, List.mem_cons,
    List.mem_nil_iff, List.append_nil, or_false] at h
  rcases h with rfl | rfl | rfl | rfl | rfl | rfl | rfl | rfl | rfl | rfl | rfl <;> decide

/-- DepthLib, a library, as an instance of the amended C3. -/
theorem deploy_count_of_mentioned_witness :
    DepthLib ∈ mentioned calls ∧
      (deployTargets calls).count DepthLib = if DepthLib ∈ dependents calls then 0 else 1 :=
  ⟨by decide, deploy_count_of_mentioned DepthLib (by decide)⟩

/-- C5: the link graph of the migration is acyclic: no unit reaches itself by a
non-empty path of link edges. -/
theorem link_graph_acyclic (u : Artifact) : ¬ Relation.TransGen LinkEdge u u := by
  intro h
  exact (transGen_linkEdge_sides h).1 (transGen_linkEdge_sides h).2

/-- C6: every artifact named by a `deploy` or `link` call of the migration is one of
the ten artifacts declared at the top of the file. -/
theorem calls_name_declared_units (c : Call) (hc : c ∈ calls) (u : Artifact)
    (hu : u ∈ c.units) : u ∈ declared ∧ declared.length = 10 := by
  rw [calls_eq] at hc
  simp only [List.mem_cons, List.mem_nil_iff, or_false] at hc
  rcases hc with rfl | rfl | rfl | rfl | rfl | rfl | rfl | rfl <;>
    simp only [Call.units, List.mem_cons, List.mem_nil_iff, or_false] at hu <;>
    [skip; skip; skip; rcases hu with rfl | rfl; skip; skip; rcases hu with rfl | rfl;
      rcases hu with rfl | rfl] <;>
    first | (subst hu; decide) | decide

/-- DepthInterface in the seventh call, as an instance of C6. -/
theorem calls_name_declared_units_witness :
    Call.link DepthLib DepthInterface ∈ calls ∧
      DepthInterface ∈ (Call.link DepthLib DepthInterface).units ∧
      (DepthInterface ∈ declared ∧ declared.length = 10) :=
  ⟨by decide, by decide,
    calls_name_declared_units (Call.link DepthLib DepthInterface) (by decide)
      DepthInterface (by decide)⟩

/-- C10: no dependent of a link call is the target of a deploy call, no library of a
link call is the dependent of a link call, and `Token` and `SimpleMemoryLib`, though
declared, are named by no call. -/
theorem dependents_not_deployed :
    dependents calls = [SubleqInterface, DepthInterface, VGInstantiator] ∧
    libraries calls = [SubleqLib, DepthLib, SubleqLib] ∧
    (∀ d ∈ dependents calls, d ∉ deployTargets calls) ∧
    (∀ l ∈ libraries calls, l ∉ dependents calls) ∧
    Token ∈ declared ∧ SimpleMemoryLib ∈ declared ∧
    Token ∉ mentioned calls ∧ SimpleMemoryLib ∉ mentioned calls := by
  refine ⟨rfl, rfl, ?_, ?_, ?_, ?_, ?_, ?_⟩ <;> decide

/-- C4: the targets of the deploy calls of the migration are pairwise distinct; the
DeploymentRecord the run builds on the ledger deployer has pairwise distinct keys,
whatever the ledger answers, and when every submission succeeds its keys are the
targets of the deploy calls, one entry for each; no deploy call is for a unit that an
earlier call has deployed. -/
theorem record_keys_distinct (submit : Nat → Artifact → Option Address)
    (addr : Nat → Artifact → Address) :
    (deployTargets calls).Nodup ∧
    (ledgerRun submit).2.1.keys.Nodup ∧
    (ledgerRun fun n u => some (addr n u)).2.1.keys = deployTargets calls ∧
    (∀ (i : Nat) (u : Artifact), calls[i]? = some (Call.deploy u) →
      u ∉ deployTargets (calls.take i)) := by
  have hnd : (deployTargets calls).Nodup := by decide
  refine ⟨hnd, ?_, rfl, ?_⟩
  · have hA := (logged_runCalls (ledgerDeployer submit) calls Ledger.empty []).2
    obtain ⟨n, hn⟩ := ledger_keys_runCalls submit calls Ledger.empty
    unfold ledgerRun
    rw [migration_eq_runCalls, hA, hn]
    exact hnd.sublist (by simpa [Ledger.keys, Ledger.empty] using List.take_sublist n _)
  · intro i u h
    have hi := lt_of_calls_getElem? h
    rw [calls_eq] at h ⊢
    interval_cases i <;> simp at h <;> subst h <;> decide

/-- C7: the units the migration deploys, in the order of deployment, are
MMInstantiator, SimpleMemoryInstantiator, SubleqLib, PartitionInstantiator, DepthLib;
this list is a subsequence of the list of declared artifacts, and a unit deployed
before another is declared before it. -/
theorem deploy_order_follows_declaration :
    deployTargets calls =
      [MMInstantiator, SimpleMemoryInstantiator, SubleqLib, PartitionInstantiator,
        DepthLib] ∧
    List.Sublist (deployTargets calls) declared ∧
    (∀ (i j : Nat) (U V : Artifact), i < j → (deployTargets calls)[i]? = some U →
      (deployTargets calls)[j]? = some V → declared.indexOf U < declared.indexOf V) := by
  refine ⟨rfl, by decide, ?_⟩
  intro i j U V hij hU hV
  have ht : deployTargets calls =
      [MMInstantiator, SimpleMemoryInstantiator, SubleqLib, PartitionInstantiator,
        DepthLib] := rfl
  rw [ht] at hU hV
  have hj : j < 5 := by
    by_contra hc
    rw [List.getElem?_eq_none (by simp; omega)] at hV
    cases hV
  interval_cases j <;> interval_cases i <;> simp at hU hV <;> subst hU <;> subst hV <;>
    decide

/-- C9, as stated, fails: run against a ledger deployer whose first submission fails,
the migration issues a single call, `deploy(MMInstantiator)`; run against the
recorder it issues all eight. -/
theorem throwing_deployer_issues_fewer_calls :
    issued (ledgerDeployer fun _ _ => none) Ledger.empty = [Call.deploy MMInstantiator] ∧
      issued recorder [] = calls ∧
      issued (ledgerDeployer fun _ _ => none) Ledger.empty ≠ issued recorder [] := by
  refine ⟨rfl, rfl, ?_⟩
  decide

/-- C9, amended: run against any deployer `d`, the migration issues an initial
segment of the fixed sequence `calls`; and whatever two deployers `d₁` and `d₂` it is
run against, and whatever they return, if both runs return then both have issued the
same call sequence, the whole of `calls`. -/
theorem issued_calls_determined {σ ε ρ σ₁ ε₁ ρ₁ σ₂ ε₂ ρ₂ : Type}
    (d : Deployer σ ε ρ) (s : σ)
    (d₁ : Deployer σ₁ ε₁ ρ₁) (d₂ : Deployer σ₂ ε₂ ρ₂) (s₁ : σ₁) (s₂ : σ₂)
    (h₁ : completes d₁ s₁ = true) (h₂ : completes d₂ s₂ = true) :
    issued d s <+: calls ∧ issued d₁ s₁ = issued d₂ s₂ ∧ issued d₁ s₁ = calls := by
  obtain ⟨n, hn⟩ := issued_eq_take d s
  rw [issued_of_completes d₁ s₁ h₁, issued_of_completes d₂ s₂ h₂, hn]
  exact ⟨⟨calls.drop n, List.take_append_drop n calls⟩, rfl, rfl⟩

/-- A ledger that rejects its third submission, and the all-accepting ledger deployer
and the recorder, two deployers with different states and results, as an instance of
the amended C9. -/
theorem issued_calls_determined_witness :
    completes (ledgerDeployer fun n _ => some (n + 100)) Ledger.empty = true ∧
      completes recorder [Call.deploy Token] = true ∧
      (issued (ledgerDeployer fun n _ => if n < 2 then some n else none) Ledger.empty
          <+: calls ∧
        issued (ledgerDeployer fun n _ => some (n + 100)) Ledger.empty =
          issued recorder [Call.deploy Token] ∧
        issued (ledgerDeployer fun n _ => some (n + 100)) Ledger.empty = calls) :=
  ⟨rfl, rfl,
    issued_calls_determined (ledgerDeployer fun n _ => if n < 2 then some n else none)
      Ledger.empty (ledgerDeployer fun n _ => some (n + 100)) recorder
      Ledger.empty [Call.deploy Token] rfl rfl⟩

/-- C8: on the ledger deployer, if the submissions of the first `k` units of the
deploy order succeed and the submission of the next unit `u` fails, the run throws the
`DeploymentFailure` naming `u`, the DeploymentRecord holds exactly the first `k` units
of the deploy order, and the calls issued are those of the migration up to and
including `deploy(u)`, none after it. -/
theorem halt_on_failed_deployment (submit : Nat → Artifact → Option Address) (k : Nat)
    (u : Artifact) (hu : (deployTargets calls)[k]? = some u)
    (hok : ∀ (i : Nat) (v : Artifact), i < k → (deployTargets calls)[i]? = some v →
      (submit i v).isSome = true)
    (hfail : submit k u = none) :
    (ledgerRun submit).1 = .error (Failure.DeploymentFailure u) ∧
    (ledgerRun submit).2.1.keys = (deployTargets calls).take k ∧
    (ledgerRun submit).2.2 = calls.take (calls.indexOf (Call.deploy u) + 1) := by
  have ht : deployTargets calls =
      [MMInstantiator, SimpleMemoryInstantiator, SubleqLib, PartitionInstantiator,
        DepthLib] := rfl
  have hk : k < 5 := by
    by_contra hc
    rw [ht, List.getElem?_eq_none (by simp; omega)] at hu
    cases hu
  have h0 := hok 0 MMInstantiator
  have h1 := hok 1 SimpleMemoryInstantiator
  have h2 := hok 2 SubleqLib
  have h3 := hok 3 PartitionInstantiator
  rw [ht] at hu h0 h1 h2 h3 ⊢
  rw [calls_eq]
  interval_cases k <;> simp at hu <;> subst hu
  · simp [ledgerRun, migration, bind, Js.seq, logged, ledgerDeployer, Ledger.empty,
      Ledger.keys, hfail]
  · obtain ⟨a0, e0⟩ := Option.isSome_iff_exists.1 (h0 (by decide) rfl)
    simp [ledgerRun, migration, bind, Js.seq, logged, ledgerDeployer, Ledger.empty,
      Ledger.keys, hfail, e0]
    decide
  · obtain ⟨a0, e0⟩ := Option.isSome_iff_exists.1 (h0 (by decide) rfl)
    obtain ⟨a1, e1⟩ := Option.isSome_iff_exists.1 (h1 (by decide) rfl)
    simp [ledgerRun, migration, bind, Js.seq, logged, ledgerDeployer, Ledger.empty,
      Ledger.keys, hfail, e0, e1]
    decide
  · obtain ⟨a0, e0⟩ := Option.isSome_iff_exists.1 (h0 (by decide) rfl)
    obtain ⟨a1, e1⟩ := Option.isSome_iff_exists.1 (h1 (by decide) rfl)
    obtain ⟨a2, e2⟩ := Option.isSome_iff_exists.1 (h2 (by decide) rfl)
    simp [ledgerRun, migration, bind, Js.seq, logged, ledgerDeployer, Ledger.empty,
      Ledger.keys, hfail, e0, e1, e2]
    decide
  · obtain ⟨a0, e0⟩ := Option.isSome_iff_exists.1 (h0 (by decide) rfl)
    obtain ⟨a1, e1⟩ := Option.isSome_iff_exists.1 (h1 (by decide) rfl)
    obtain ⟨a2, e2⟩ := Option.isSome_iff_exists.1 (h2 (by decide) rfl)
    obtain ⟨a3, e3⟩ := Option.isSome_iff_exists.1 (h3 (by decide) rfl)
    simp [ledgerRun, migration, bind, Js.seq, logged, ledgerDeployer, Ledger.empty,
      Ledger.keys, hfail, e0, e1, e2, e3]
    decide

/-- A ledger that accepts two submissions and rejects the third, as an instance of C8. -/
theorem halt_on_failed_deployment_witness :
    (deployTargets calls)[2]? = some SubleqLib ∧
      (∀ (i : Nat) (v : Artifact), i < 2 → (deployTargets calls)[i]? = some v →
        (if i < 2 then some (i + 7) else none : Option Address).isSome = true) ∧
      (if 2 < 2 then some (2 + 7) else none : Option Address) = none ∧
      ((ledgerRun fun n _ => if n < 2 then some (n + 7) else none).1 =
          .error (Failure.DeploymentFailure SubleqLib) ∧
        (ledgerRun fun n _ => if n < 2 then some (n + 7) else none).2.1.keys =
          (deployTargets calls).take 2 ∧
        (ledgerRun fun n _ => if n < 2 then some (n + 7) else none).2.2 =
          calls.take (calls.indexOf (Call.deploy SubleqLib) + 1)) :=
  ⟨rfl, fun i _ hi _ => by simp [hi], rfl,
    halt_on_failed_deployment (fun n _ => if n < 2 then some (n + 7) else none) 2 SubleqLib
      rfl (fun i _ hi _ => by simp [hi]) rfl⟩

end DeployLibraries
